import Mathlib

/-!
Verification of the smart-git extension's commit-selection core against its
natural-language specification.

The TypeScript sources are shallowly embedded: strings are modelled as Lean
`String` (or `List Char` where JavaScript string algorithms are re-traced
character by character), the per-repository selection store is modelled as the
stored list of paths for one repository key, and the external Git clients of
the commit orchestrator are modelled by a behaviour oracle recording which
calls succeed.  Every definition follows the corresponding TypeScript function;
definitions written from the specification's words (for refinement
comparisons) say so in their doc comment.
-/

namespace SmartGit

/-! ## JavaScript string primitives, re-traced over `List Char` -/

/-- Character-wise prefix test: `matchesAt pat l` holds when `pat` is a prefix of `l`. -/
def matchesAt : List Char → List Char → Bool
  | [], _ => true
  | _ :: _, [] => false
  | p :: ps, c :: cs => p = c && matchesAt ps cs

/-- JavaScript `String.prototype.includes`: `containsSub pat l` holds when
`pat` occurs contiguously inside `l`. -/
def containsSub (pat : List Char) : List Char → Bool
  | [] => pat.isEmpty
  | c :: rest => matchesAt pat (c :: rest) || containsSub pat rest

/-- ASCII lower-casing of one character, as JavaScript `toLowerCase` acts on
the ASCII range. -/
def lowerChar (c : Char) : Char :=
  if 65 ≤ c.toNat ∧ c.toNat ≤ 90 then Char.ofNat (c.toNat + 32) else c

/-- JavaScript `String.prototype.toLowerCase` over the ASCII range. -/
def jsToLower (l : List Char) : List Char := l.map lowerChar

/-- JavaScript `String.prototype.split('\n')`. -/
def splitLines : List Char → List (List Char)
  | [] => [[]]
  | c :: rest =>
    if c = '\n' then [] :: splitLines rest
    else
      match splitLines rest with
      | [] => [[c]]
      | h :: t => (c :: h) :: t

/-- JavaScript `Array.prototype.join('\n')`. -/
def joinLines : List (List Char) → List Char
  | [] => []
  | [s] => s
  | s :: rest => s ++ '\n' :: joinLines rest

/-- The white-space characters JavaScript `String.prototype.trim` removes
(ASCII portion). -/
def isJsWhitespace (c : Char) : Bool :=
  c = ' ' || c = '\t' || c = '\n' || c = '\r' || c = Char.ofNat 11 || c = Char.ofNat 12

/-- JavaScript `String.prototype.trim` (ASCII white space). -/
def jsTrim (l : List Char) : List Char :=
  ((l.dropWhile isJsWhitespace).reverse.dropWhile isJsWhitespace).reverse

/-- First-occurrence-preserving de-duplication, the order a JavaScript
`new Set(array)` iterates in.  `seen` is the set of already-emitted values. -/
def dedupFirstAux (seen : List String) : List String → List String
  | [] => []
  | x :: xs =>
    if x ∈ seen then dedupFirstAux seen xs
    else x :: dedupFirstAux (x :: seen) xs

/-- Models `[...new Set(l)]` for a list of strings. -/
def dedupFirst (l : List String) : List String := dedupFirstAux [] l

/-! ## Repository state (`repository.state` of the host Git API)

A `Change` keeps the fields the embedded code reads: the file's path
(`uri.fsPath`) and the numeric status. -/

structure Change where
  uri : String
  status : Option Nat
deriving DecidableEq, Repr

/-- The three change categories of `repository.state`. -/
structure RepoState where
  indexChanges : List Change
  workingTreeChanges : List Change
  untrackedChanges : List Change
deriving DecidableEq, Repr

namespace FileSelectionService

/-- Models `FileSelectionService.getChangedFiles`: concatenates the three change
categories in source order (index, working tree, untracked), maps each change
to its path and de-duplicates with a JavaScript `Set` (first occurrence
wins). -/
def getChangedFiles (r : RepoState) : List String :=
  let changedFiles := r.indexChanges ++ r.workingTreeChanges ++ r.untrackedChanges
  let uris := changedFiles.map (fun change => change.uri)
  dedupFirst uris

/-- Modelled from the spec: the same enumeration under the priority order the
spec asserts (untracked > staged > working-tree), i.e. the untracked category
listed first so its occurrence of a duplicated path wins.  Written for
comparison with `getChangedFiles`, which is embedded from the source. -/
def getChangedFilesUntrackedFirst (r : RepoState) : List String :=
  dedupFirst ((r.untrackedChanges ++ r.indexChanges ++ r.workingTreeChanges).map
    (fun change => change.uri))

/-- Models `FileSelectionService.toggleFileSelection`, acting on the stored list of
selected paths for one repository key.  JavaScript `indexOf`/`splice` removes
the first occurrence; `push` appends. -/
def toggleFileSelection (selectedPaths : List String) (filePath : String) : List String :=
  if filePath ∈ selectedPaths then selectedPaths.erase filePath
  else selectedPaths ++ [filePath]

/-- Models `FileSelectionService.setFileSelection`. -/
def setFileSelection (selectedPaths : List String) (filePath : String)
    (isSelected : Bool) : List String :=
  if isSelected ∧ filePath ∉ selectedPaths then selectedPaths ++ [filePath]
  else if ¬isSelected ∧ filePath ∈ selectedPaths then selectedPaths.erase filePath
  else selectedPaths

/-- Models `FileSelectionService.clearSelection`: stores the empty list. -/
def clearSelection : List String := []

end FileSelectionService

namespace GitDiffService

/-- Models `GitDiffService.getNewFileDiff`: synthesizes an addition-style diff for a
new file.  `fileContent = none` models `openTextDocument` throwing. -/
def getNewFileDiff (fileContent : Option (List Char)) (relativePath : List Char) : List Char :=
  match fileContent with
  | some content =>
    let lines := splitLines content
    "+++ ".data ++ relativePath ++ "\n".data ++
      joinLines ((lines.map (fun line => '+' :: line)).take 50) ++
      (if lines.length > 50 then "\n... (truncated)".data else [])
  | none => "New file: ".data ++ relativePath

/-- The `// Truncate very long diffs` step of `GitDiffService.getGitDiff`: a
diff longer than 2000 characters is replaced by its first 50 lines with a
marker appended. -/
def truncateDiff (diff : List Char) : List Char :=
  if diff.length > 2000 then
    joinLines ((splitLines diff).take 50) ++ "\n... (diff truncated for AI analysis)".data
  else diff

/-- Models `GitDiffService.getGitDiff`: runs `git diff HEAD -- <path>` through
simple-git.  `hasGit` models whether a simple-git instance exists for the
repository root; `diffOutcome = none` models `git.diff` throwing, while
`some s` is the diff text it returned (the empty string is falsy in
JavaScript, so it is replaced by the placeholder before truncation). -/
def getGitDiff (hasGit : Bool) (diffOutcome : Option (List Char))
    (relativePath changeType : List Char) : List Char :=
  if hasGit then
    match diffOutcome with
    | some gitDiff =>
      truncateDiff (if gitDiff.isEmpty then changeType ++ ": ".data ++ relativePath
                    else gitDiff)
    | none => changeType ++ ": ".data ++ relativePath
  else changeType ++ ": ".data ++ relativePath

/-- Models `GitDiffService.getFileDiff`: dispatches on the change type — `'A'` uses
the synthetic new-file diff, everything else the git diff. -/
def getFileDiff (hasGit : Bool) (diffOutcome : Option (List Char))
    (fileContent : Option (List Char)) (relativePath changeType : List Char) : List Char :=
  if changeType = "A".data then getNewFileDiff fileContent relativePath
  else getGitDiff hasGit diffOutcome relativePath changeType

end GitDiffService

/-! ## Validation checker -/

/-- The repository handle as `GitValidationService.validateCommitSetup` probes
it: root URI (possibly missing), presence of the `add`/`commit` methods, and
availability of `repository.state`. -/
structure Repo where
  rootUri : Option String
  hasAddMethod : Bool
  hasCommitMethod : Bool
  hasState : Bool
deriving DecidableEq, Repr

namespace GitValidationService

/-- Models `GitValidationService.validateCommitSetup`.  The missing-repository and
missing-root-URI checks return immediately, exactly as the source does; the
remaining checks push their issue and continue.  Returns
`(isValid, issues)`. -/
def validateCommitSetup (repository : Option Repo)
    (selectedFiles changedFiles : List String) : Bool × List String :=
  match repository with
  | none => (false, ["No repository provided"])
  | some repo =>
    match repo.rootUri with
    | none => (false, ["Repository has no root URI"])
    | some _ =>
      let addIssue := if repo.hasAddMethod then []
                      else ["Repository.add method not available"]
      let commitIssue := if repo.hasCommitMethod then []
                         else ["Repository.commit method not available"]
      let selectionIssue := if selectedFiles.isEmpty then ["No files selected for commit"]
                            else []
      let validSelectedFiles := selectedFiles.filter
        (fun selected => changedFiles.any (fun changed => changed = selected))
      let staleIssue := if validSelectedFiles.isEmpty then ["Selected files have no changes"]
                        else []
      let stateIssue := if repo.hasState then [] else ["Repository state is not available"]
      let issues := addIssue ++ commitIssue ++ selectionIssue ++ staleIssue ++ stateIssue
      (issues.isEmpty, issues)

end GitValidationService

/-! ## Message heuristic pipeline (`CommitMessageGenerator`) -/

namespace CommitMessageGenerator

/-- One analyzed file change, as assembled by `analyzeFileChange`. -/
structure FileChangeAnalysis where
  fileName : String
  changeType : String
  diff : String
  summary : String
deriving DecidableEq, Repr

/-- Models `CommitMessageGenerator.createDetailedCommitPrompt`: the fixed prompt
template with per-file summaries and diffs interpolated. -/
def createDetailedCommitPrompt (diffsAndContext : List FileChangeAnalysis) : String :=
  let filesSummary := String.intercalate "\n"
    (diffsAndContext.map (fun item => "- " ++ item.summary))
  let detailedChanges := String.intercalate "\n\n---\n\n"
    (diffsAndContext.map (fun item =>
      "File: " ++ item.fileName ++ "\nChange Type: " ++ item.changeType ++
        "\nDiff:\n" ++ item.diff))
  "Generate a concise, professional Git commit message following conventional commit format.\n\nFiles changed:\n" ++
    filesSummary ++
    "\n\nDetailed changes:\n" ++
    detailedChanges ++
    "\n\nPlease generate a commit message that:\n1. Uses conventional commit format (feat:, fix:, docs:, style:, refactor:, test:, chore:)\n2. Is concise but descriptive (50-72 characters for the title)\n3. Captures the main purpose of these changes\n4. Uses present tense (e.g., \"add feature\" not \"added feature\")\n\nReturn only the commit message, no additional text."

/-- The ordered keyword-to-type table of `determineCommitType`
(`Object.entries` iterates object-literal keys in insertion order). -/
def typeMap : List (String × List String) :=
  [("fix", ["fix", "bug", "error"]),
   ("test", ["test", "spec"]),
   ("docs", ["doc", "readme", ".md"]),
   ("refactor", ["refactor", "restructure"]),
   ("style", ["style", "format"]),
   ("chore", ["delete", "remove"])]

/-- The first table row one of whose keywords occurs in `lower`
(first-match-wins scan shared by the type and scope tables). -/
def findFirstMatch (lower : List Char) : List (String × List String) → Option String
  | [] => none
  | (result, keywords) :: rest =>
    if keywords.any (fun keyword => containsSub keyword.data lower) then some result
    else findFirstMatch lower rest

/-- Models `CommitMessageGenerator.determineCommitType`. -/
def determineCommitType (prompt : String) : String :=
  let lowerPrompt := jsToLower prompt.data
  (findFirstMatch lowerPrompt typeMap).getD "feat"

/-- The ordered keyword-to-scope table of `determineScope`. -/
def scopeMap : List (String × List String) :=
  [("deps", ["package.json"]),
   ("test", ["test", "spec"]),
   ("docs", ["doc", "readme"]),
   ("config", ["config", ".json", ".yml"]),
   ("ui", ["ui", "component"]),
   ("api", ["api", "service"])]

/-- Models `CommitMessageGenerator.determineScope`. -/
def determineScope (prompt : String) : String :=
  let lowerPrompt := jsToLower prompt.data
  (findFirstMatch lowerPrompt scopeMap).getD ""

/-- Models `CommitMessageGenerator.getDescriptionMap`: keyword-to-description tables,
keyed by commit type (only `fix` and `feat` have entries). -/
def descriptionMap : List (String × List (String × String)) :=
  [("fix", [("bug", "resolve critical bug"), ("error", "handle error cases")]),
   ("feat", [("add", "add new feature"), ("implement", "implement functionality")])]

/-- Models `CommitMessageGenerator.getDefaultDescription`. -/
def getDefaultDescription (commitType : String) : String :=
  (List.lookup commitType
    [("feat", "add new functionality"),
     ("fix", "resolve issues"),
     ("docs", "update documentation"),
     ("style", "format code"),
     ("refactor", "improve structure"),
     ("test", "add tests"),
     ("chore", "update tasks")]).getD "update codebase"

/-- The first keyword of a per-type description table occurring in the
lower-cased prompt. -/
def findDescription (lower : List Char) : List (String × String) → Option String
  | [] => none
  | (keyword, description) :: rest =>
    if containsSub keyword.data lower then some description
    else findDescription lower rest

/-- Models `CommitMessageGenerator.generateDescription`. -/
def generateDescription (prompt commitType : String) : String :=
  let lowerPrompt := jsToLower prompt.data
  match List.lookup commitType descriptionMap with
  | some typeDescriptions =>
    (findDescription lowerPrompt typeDescriptions).getD (getDefaultDescription commitType)
  | none => getDefaultDescription commitType

/-- Models `CommitMessageGenerator.generateIntelligentCommitMessage` (the pure body
of the promise; nothing in it can throw, so it always yields a message). -/
def generateIntelligentCommitMessage (prompt : String) : Option String :=
  let commitType := determineCommitType prompt
  let scope := determineScope prompt
  let description := generateDescription prompt commitType
  let scopePart := if scope ≠ "" then "(" ++ scope ++ ")" else ""
  some (commitType ++ scopePart ++ ": " ++ description)

end CommitMessageGenerator

/-! ## Commit orchestrator (`GitService`)

The two external Git clients (host `repository.*` API and the simple-git
process wrapper) are modelled by a behaviour oracle saying which calls
succeed; every call the orchestrator issues is recorded as an event, so the
theorems can speak about which client operations happened and in what
order. -/

/-- One call into an external Git client, or a state mutation of this
system. -/
inductive GitEvent where
  /-- Models `repository.add([uri])` for one file (primary client staging). -/
  | primaryAdd (path : String)
  /-- Models `simpleGit.add(paths)` (fallback client staging, relative paths). -/
  | fallbackAdd (paths : List String)
  /-- Models `repository.commit(...)` (primary client commit). -/
  | primaryCommit (amend : Bool)
  /-- Models `simpleGit.commit(...)` (fallback client commit). -/
  | fallbackCommit (amend : Bool)
  /-- Models `clearSelection` on the selection store. -/
  | clearSelection
  /-- Models `_onDidGitStateChange.fire()`. -/
  | notify
deriving DecidableEq, Repr

/-- Which external client calls succeed, whether a simple-git instance exists
for the repository, and the absolute-to-relative path mapping
(`workspace.asRelativePath`). -/
structure ClientBehavior where
  primaryAddOk : String → Bool
  hasSimpleGit : Bool
  fallbackAddOk : List String → Bool
  primaryCommitOk : Bool
  fallbackCommitOk : Bool
  rel : String → String

/-- Outcome of a commit attempt: the thrown-or-returned result, the selection
stored for the repository afterwards, and the recorded events. -/
structure CommitResult where
  result : Except String Unit
  selection : List String
  events : List GitEvent
deriving Repr

namespace GitService

/-- The `for (const uri of files) await repository.add([uri])` loop: stages
file by file through the primary client until the first failure.  Returns
whether the loop completed and the staging calls attempted (the failing call
included). -/
def stagePrimary (b : ClientBehavior) : List String → Bool × List GitEvent
  | [] => (true, [])
  | f :: rest =>
    if b.primaryAddOk f then
      let (ok, events) := stagePrimary b rest
      (ok, GitEvent.primaryAdd f :: events)
    else (false, [GitEvent.primaryAdd f])

/-- Models `GitService.stageWithSimpleGit`: the fallback stages the whole list by
relative path in one `add` call; failure is rethrown as
`Failed to stage files: ...`. -/
def stageWithSimpleGit (b : ClientBehavior) (files : List String) :
    Except String Unit × List GitEvent :=
  if b.hasSimpleGit then
    let filePaths := files.map b.rel
    if b.fallbackAddOk filePaths then (Except.ok (), [GitEvent.fallbackAdd filePaths])
    else (Except.error "Failed to stage files: fallback staging failed",
          [GitEvent.fallbackAdd filePaths])
  else (Except.error "Simple-git instance not found for repository", [])

/-- Primary staging of `files` with one fallback attempt through simple-git on
failure (the `try`/`catch` around the staging loop). -/
def stageList (b : ClientBehavior) (files : List String) :
    Except String Unit × List GitEvent :=
  match stagePrimary b files with
  | (true, events) => (Except.ok (), events)
  | (false, events) =>
    let (result, fallbackEvents) := stageWithSimpleGit b files
    (result, events ++ fallbackEvents)

/-- Models `GitService.stageSelectedFiles` (the variant with the implicit-selection
fallback): an empty selection stages the full change enumeration, failing only
when there are no changed files at all. -/
def stageSelectedFiles (b : ClientBehavior) (selectedUris : List String)
    (r : RepoState) : Except String Unit × List GitEvent :=
  if selectedUris.isEmpty then
    let changedFiles := FileSelectionService.getChangedFiles r
    if changedFiles.isEmpty then
      (Except.error "No changed files to stage. Make some changes first.", [])
    else stageList b changedFiles
  else stageList b selectedUris

/-- Models `GitService.commitWithSimpleGit`: the fallback commit through
simple-git. -/
def commitWithSimpleGit (b : ClientBehavior) (amend : Bool) :
    Except String Unit × List GitEvent :=
  if b.hasSimpleGit then
    if b.fallbackCommitOk then (Except.ok (), [GitEvent.fallbackCommit amend])
    else (Except.error "simple-git commit failed", [GitEvent.fallbackCommit amend])
  else (Except.error "Simple-git instance not found for repository", [])

/-- Models `GitService.commit` (the orchestrating variant): validates the message,
checks `repository.state`, stages unless amending, commits through the primary
client with one fallback attempt, and on overall success clears the selection
and fires the state-change notification.  `selectedUris` is the stored
selection for the repository when the commit starts. -/
def commit (b : ClientBehavior) (hasState : Bool) (selectedUris : List String)
    (r : RepoState) (message : String) (amend : Bool) : CommitResult :=
  if (jsTrim message.data).isEmpty then
    { result := Except.error "Commit message cannot be empty",
      selection := selectedUris, events := [] }
  else if !hasState then
    { result := Except.error "Commit failed: Repository state is not available",
      selection := selectedUris, events := [] }
  else
    let (stageResult, stageEvents) :=
      if amend then (Except.ok (), [])
      else stageSelectedFiles b selectedUris r
    match stageResult with
    | Except.error e =>
      { result := Except.error ("Commit failed: " ++ e),
        selection := selectedUris, events := stageEvents }
    | Except.ok _ =>
      let (commitResult, commitEvents) :=
        if b.primaryCommitOk then (Except.ok (), [GitEvent.primaryCommit amend])
        else
          let (fallbackResult, fallbackEvents) := commitWithSimpleGit b amend
          (fallbackResult, GitEvent.primaryCommit amend :: fallbackEvents)
      match commitResult with
      | Except.error e =>
        { result := Except.error ("Commit failed: " ++ e),
          selection := selectedUris, events := stageEvents ++ commitEvents }
      | Except.ok _ =>
        { result := Except.ok (),
          selection := FileSelectionService.clearSelection,
          events := stageEvents ++ commitEvents ++ [GitEvent.clearSelection, GitEvent.notify] }

end GitService

namespace GitServiceAlt

/-- Models `GitService.stageSelectedFiles` of the alternate variant: an empty
selection is rejected outright with an error, and a primary staging failure is
rethrown with no fallback client. -/
def stageSelectedFiles (b : ClientBehavior) (selectedUris : List String) :
    Except String Unit × List GitEvent :=
  if selectedUris.isEmpty then
    (Except.error "No files selected for staging", [])
  else
    match GitService.stagePrimary b selectedUris with
    | (true, events) => (Except.ok (), events)
    | (false, events) => (Except.error "Failed to stage files: staging failed", events)

/-- Models `GitService.commit` of the alternate variant: validates the message, then
commits directly through the primary client (no staging, no fallback); success
clears the selection and fires the notification. -/
def commit (b : ClientBehavior) (selectedUris : List String)
    (message : String) (amend : Bool) : CommitResult :=
  if (jsTrim message.data).isEmpty then
    { result := Except.error "Commit message cannot be empty",
      selection := selectedUris, events := [] }
  else if b.primaryCommitOk then
    { result := Except.ok (),
      selection := FileSelectionService.clearSelection,
      events := [GitEvent.primaryCommit amend, GitEvent.clearSelection, GitEvent.notify] }
  else
    { result := Except.error "Commit failed: primary commit failed",
      selection := selectedUris, events := [GitEvent.primaryCommit amend] }

end GitServiceAlt

/-! ### Laws of the primitives -/

theorem jsToLower_append (a b : List Char) :
    jsToLower (a ++ b) = jsToLower a ++ jsToLower b :=
  List.map_append lowerChar a b

theorem containsSub_append_of_right (pat l₂ : List Char) (h : containsSub pat l₂ = true) :
    ∀ l₁ : List Char, containsSub pat (l₁ ++ l₂) = true := by
  intro l₁
  induction l₁ with
  | nil => simpa using h
  | cons c rest ih =>
    simp only [List.cons_append, containsSub, Bool.or_eq_true]
    exact Or.inr ih

theorem mem_dedupFirstAux {a : String} :
    ∀ (l : List String) (seen : List String),
      a ∈ dedupFirstAux seen l ↔ a ∈ l ∧ a ∉ seen := by
  intro l
  induction l with
  | nil => intro seen; simp [dedupFirstAux]
  | cons x xs ih =>
    intro seen
    by_cases hx : x ∈ seen
    · simp only [dedupFirstAux, if_pos hx, ih, List.mem_cons]
      constructor
      · rintro ⟨h1, h2⟩; exact ⟨Or.inr h1, h2⟩
      · rintro ⟨h1 | h1, h2⟩
        · exact absurd (h1 ▸ hx) h2
        · exact ⟨h1, h2⟩
    · simp only [dedupFirstAux, if_neg hx, List.mem_cons, ih, List.mem_cons]
      by_cases hax : a = x
      · simp [hax, hx]
      · simp [hax]

theorem nodup_dedupFirstAux :
    ∀ (l : List String) (seen : List String), (dedupFirstAux seen l).Nodup := by
  intro l
  induction l with
  | nil => intro seen; simp [dedupFirstAux]
  | cons x xs ih =>
    intro seen
    by_cases hx : x ∈ seen
    · simpa [dedupFirstAux, if_pos hx] using ih seen
    · simp only [dedupFirstAux, if_neg hx, List.nodup_cons]
      refine ⟨fun hmem => ?_, ih (x :: seen)⟩
      exact ((mem_dedupFirstAux xs (x :: seen)).mp hmem).2 (List.mem_cons_self x seen)

theorem dedupFirst_nodup (l : List String) : (dedupFirst l).Nodup :=
  nodup_dedupFirstAux l []

theorem mem_dedupFirst {a : String} {l : List String} :
    a ∈ dedupFirst l ↔ a ∈ l := by
  simpa [dedupFirst] using mem_dedupFirstAux (a := a) l []

theorem dropWhile_eq_nil_of_forall {p : Char → Bool} :
    ∀ l : List Char, (∀ c ∈ l, p c = true) → l.dropWhile p = [] := by
  intro l
  induction l with
  | nil => intro _; rfl
  | cons c rest ih =>
    intro h
    rw [List.dropWhile_cons, if_pos (h c (List.mem_cons_self c rest))]
    exact ih fun d hd => h d (List.mem_cons_of_mem c hd)

theorem jsTrim_eq_nil_of_whitespace {l : List Char}
    (h : ∀ c ∈ l, isJsWhitespace c = true) : jsTrim l = [] := by
  unfold jsTrim
  rw [dropWhile_eq_nil_of_forall l h]
  rfl

theorem splitLines_ne_nil : ∀ l : List Char, splitLines l ≠ [] := by
  intro l
  induction l with
  | nil => simp [splitLines]
  | cons c rest ih =>
    by_cases hc : c = '\n'
    · simp [splitLines, hc]
    · simp only [splitLines, if_neg hc]
      rcases hrest : splitLines rest with _ | ⟨h, t⟩
      · exact absurd hrest ih
      · simp

theorem splitLines_of_no_newline :
    ∀ l : List Char, '\n' ∉ l → splitLines l = [l] := by
  intro l
  induction l with
  | nil => intro _; rfl
  | cons c rest ih =>
    intro h
    have hc : ¬c = '\n' := fun hc => h (hc ▸ List.mem_cons_self c rest)
    have hrest : '\n' ∉ rest := fun hm => h (List.mem_cons_of_mem c hm)
    simp only [splitLines, if_neg hc, ih hrest]

theorem length_splitLines : ∀ l : List Char, (splitLines l).length = l.count '\n' + 1 := by
  intro l
  induction l with
  | nil => simp [splitLines]
  | cons c rest ih =>
    by_cases hc : c = '\n'
    · subst hc
      simp [splitLines, ih, List.count_cons]
    · simp only [splitLines, if_neg hc]
      rcases hrest : splitLines rest with _ | ⟨h, t⟩
      · exact absurd hrest (splitLines_ne_nil rest)
      · have : (h :: t).length = rest.count '\n' + 1 := hrest ▸ ih
        simp only [List.length_cons] at this ⊢
        rw [List.count_cons]
        simp [hc, this]

theorem no_newline_of_mem_splitLines :
    ∀ (l : List Char) (s : List Char), s ∈ splitLines l → '\n' ∉ s := by
  intro l
  induction l with
  | nil =>
    intro s hs
    simp only [splitLines, List.mem_singleton] at hs
    simp [hs]
  | cons c rest ih =>
    intro s hs
    by_cases hc : c = '\n'
    · simp only [splitLines, if_pos hc, List.mem_cons] at hs
      rcases hs with rfl | hs
      · simp
      · exact ih s hs
    · simp only [splitLines, if_neg hc] at hs
      rcases hrest : splitLines rest with _ | ⟨h, t⟩
      · exact absurd hrest (splitLines_ne_nil rest)
      · rw [hrest] at hs
        rcases List.mem_cons.mp hs with rfl | hmem
        · intro hmem2
          rcases List.mem_cons.mp hmem2 with hceq | hmem3
          · exact hc hceq.symm
          · exact ih h (hrest ▸ List.mem_cons_self h t) hmem3
        · exact ih s (hrest ▸ List.mem_cons_of_mem h hmem)

theorem count_joinLines_le :
    ∀ ls : List (List Char), (∀ s ∈ ls, '\n' ∉ s) →
      (joinLines ls).count '\n' ≤ ls.length - 1 := by
  intro ls
  induction ls with
  | nil => intro _; simp [joinLines]
  | cons s rest ih =>
    intro h
    rcases rest with _ | ⟨s2, rest2⟩
    · have : s.count '\n' = 0 :=
        List.count_eq_zero.mpr (h s (List.mem_cons_self s []))
      simp [joinLines, this]
    · have hs : s.count '\n' = 0 :=
        List.count_eq_zero.mpr (h s (List.mem_cons_self s (s2 :: rest2)))
      have hrest := ih fun t ht => h t (List.mem_cons_of_mem s ht)
      have hjoin : joinLines (s :: s2 :: rest2) = s ++ '\n' :: joinLines (s2 :: rest2) := rfl
      rw [hjoin, List.count_append, hs, List.count_cons_self]
      simp only [List.length_cons] at hrest ⊢
      omega


/-! ## Claims about the selection store -/

/-- C8: for every repository, file path and starting selection state (the
stored lists, which the store's operations keep duplicate-free), toggling the
same path twice leaves the SelectionSet — the set of selected paths —
unchanged. -/
theorem toggle_twice_id_on_set (selectedPaths : List String) (filePath : String)
    (h : selectedPaths.Nodup) :
    ∀ q, q ∈ FileSelectionService.toggleFileSelection
            (FileSelectionService.toggleFileSelection selectedPaths filePath) filePath ↔
          q ∈ selectedPaths := by
  intro q
  by_cases hmem : filePath ∈ selectedPaths
  · have h1 : FileSelectionService.toggleFileSelection selectedPaths filePath =
        selectedPaths.erase filePath := by
      simp [FileSelectionService.toggleFileSelection, hmem]
    have h2 : filePath ∉ selectedPaths.erase filePath := by
      simp [h.mem_erase_iff]
    rw [h1]
    simp only [FileSelectionService.toggleFileSelection, if_neg h2, List.mem_append,
      h.mem_erase_iff, List.mem_singleton]
    by_cases hq : q = filePath
    · simp [hq, hmem]
    · simp [hq]
  · have h1 : FileSelectionService.toggleFileSelection selectedPaths filePath =
        selectedPaths ++ [filePath] := by
      simp [FileSelectionService.toggleFileSelection, hmem]
    have h2 : filePath ∈ selectedPaths ++ [filePath] := by simp
    rw [h1]
    simp only [FileSelectionService.toggleFileSelection, if_pos h2,
      List.erase_append_right _ hmem, List.erase_cons_head, List.append_nil]

/-- Witness for C8 at a concrete state. -/
theorem toggle_twice_id_on_set_witness :
    (["a", "b"] : List String).Nodup ∧
    ("a" ∈ FileSelectionService.toggleFileSelection
        (FileSelectionService.toggleFileSelection ["a", "b"] "b") "b" ↔
      "a" ∈ (["a", "b"] : List String)) :=
  ⟨by decide, toggle_twice_id_on_set ["a", "b"] "b" (by decide) "a"⟩

/-- C10: starting from a duplicate-free stored selection list (the empty list
of first reference included), each selection-store operation — toggle, set
with either flag, clear — again yields a duplicate-free list. -/
theorem selection_ops_preserve_nodup (selectedPaths : List String) (filePath : String)
    (isSelected : Bool) (h : selectedPaths.Nodup) :
    (FileSelectionService.toggleFileSelection selectedPaths filePath).Nodup ∧
    (FileSelectionService.setFileSelection selectedPaths filePath isSelected).Nodup ∧
    (FileSelectionService.clearSelection).Nodup := by
  refine ⟨?_, ?_, by simp [FileSelectionService.clearSelection]⟩
  · unfold FileSelectionService.toggleFileSelection
    by_cases hmem : filePath ∈ selectedPaths
    · simpa [hmem] using h.erase filePath
    · simp [hmem, List.nodup_append, h]
  · unfold FileSelectionService.setFileSelection
    by_cases hmem : filePath ∈ selectedPaths <;> cases isSelected <;>
      simp [hmem, List.nodup_append, h, h.erase filePath]

/-- Witness for C10 at a concrete state. -/
theorem selection_ops_preserve_nodup_witness :
    (["a", "b"] : List String).Nodup ∧
    ((FileSelectionService.toggleFileSelection ["a", "b"] "c").Nodup ∧
     (FileSelectionService.setFileSelection ["a", "b"] "c" true).Nodup ∧
     (FileSelectionService.clearSelection).Nodup) :=
  ⟨by decide, selection_ops_preserve_nodup ["a", "b"] "c" true (by decide)⟩

/-! ## Claims about the change enumerator -/

/-- C3 counterexample: the source concatenates index, working-tree, untracked
(in that order) before de-duplicating, so with path `a` both staged and
untracked and path `b` untracked only, the enumeration is `["a", "b"]`; the
spec's untracked-first priority would give `["b", "a"]`. -/
theorem getChangedFiles_priority_refuted :
    FileSelectionService.getChangedFiles
        ⟨[⟨"a", none⟩], [], [⟨"b", none⟩, ⟨"a", none⟩]⟩ = ["a", "b"] ∧
    FileSelectionService.getChangedFilesUntrackedFirst
        ⟨[⟨"a", none⟩], [], [⟨"b", none⟩, ⟨"a", none⟩]⟩ = ["b", "a"] ∧
    (["a", "b"] : List String) ≠ ["b", "a"] := by
  decide

/-- C3 as amended: the enumeration de-duplicates by path with first occurrence
winning under the priority order staged > working-tree > untracked (the
source's concatenation order); the result has no duplicate paths and contains
exactly the paths of the three categories. -/
theorem getChangedFiles_dedup_staged_first (r : RepoState) :
    FileSelectionService.getChangedFiles r =
      dedupFirst ((r.indexChanges ++ r.workingTreeChanges ++ r.untrackedChanges).map
        (fun change => change.uri)) ∧
    (FileSelectionService.getChangedFiles r).Nodup ∧
    ∀ p, p ∈ FileSelectionService.getChangedFiles r ↔
      p ∈ (r.indexChanges ++ r.workingTreeChanges ++ r.untrackedChanges).map
        (fun change => change.uri) :=
  ⟨rfl, dedupFirst_nodup _, fun _ => mem_dedupFirst⟩

/-! ## Claims about the commit orchestrator -/

/-- Behaviour of `stagePrimary` under a primary client that accepts every path: the loop
completes and stages each file in order. -/
theorem stagePrimary_all_ok (b : ClientBehavior) :
    ∀ files : List String, (∀ p ∈ files, b.primaryAddOk p = true) →
      GitService.stagePrimary b files = (true, files.map GitEvent.primaryAdd) := by
  intro files
  induction files with
  | nil => intro _; rfl
  | cons f rest ih =>
    intro h
    have hf : b.primaryAddOk f = true := h f (List.mem_cons_self f rest)
    have hrest := ih fun p hp => h p (List.mem_cons_of_mem f hp)
    simp [GitService.stagePrimary, hf, hrest]

/-- C4 counterexample: the alternate `GitService.stageSelectedFiles` variant
rejects an empty selection outright — whatever the changed files are (it never
consults them) — instead of staging the full change enumeration. -/
theorem stageSelectedFilesAlt_empty_selection_fails :
    GitServiceAlt.stageSelectedFiles
        ⟨fun _ => true, true, fun _ => true, true, true, id⟩ [] =
      (Except.error "No files selected for staging", []) := rfl

/-- C4 as amended: the orchestrating `GitService` variant (the one with the
implicit-selection fallback) stages the full change enumeration when the
selection is empty, staging each changed file through the primary client; the
coexisting alternate variant instead fails outright (see the
counterexample). -/
theorem stageSelectedFiles_empty_selection_stages_all (b : ClientBehavior) (r : RepoState)
    (hok : ∀ p, b.primaryAddOk p = true)
    (hne : FileSelectionService.getChangedFiles r ≠ []) :
    GitService.stageSelectedFiles b [] r =
      (Except.ok (), (FileSelectionService.getChangedFiles r).map GitEvent.primaryAdd) := by
  have hstage := stagePrimary_all_ok b (FileSelectionService.getChangedFiles r)
    (fun p _ => hok p)
  simp [GitService.stageSelectedFiles, GitService.stageList, hne, hstage]

/-- Witness for C4: with selection `{}` and changed files `{b.txt, c.txt}`,
both `b.txt` and `c.txt` are staged. -/
theorem stageSelectedFiles_empty_selection_stages_all_witness :
    GitService.stageSelectedFiles ⟨fun _ => true, true, fun _ => true, true, true, id⟩ []
        ⟨[], [⟨"b.txt", none⟩, ⟨"c.txt", none⟩], []⟩ =
      (Except.ok (), [GitEvent.primaryAdd "b.txt", GitEvent.primaryAdd "c.txt"]) := by
  simpa using stageSelectedFiles_empty_selection_stages_all
    ⟨fun _ => true, true, fun _ => true, true, true, id⟩
    ⟨[], [⟨"b.txt", none⟩, ⟨"c.txt", none⟩], []⟩ (fun _ => rfl) (by decide)

/-- C6: a whitespace-only commit message (the empty message included) is
rejected with an error before any staging or client commit call, and neither
the selection store nor the notification state is touched — in both
`GitService.commit` variants. -/
theorem commit_whitespace_message_rejected (b : ClientBehavior) (hasState : Bool)
    (selectedUris : List String) (r : RepoState) (message : String) (amend : Bool)
    (h : ∀ c ∈ message.data, isJsWhitespace c = true) :
    GitService.commit b hasState selectedUris r message amend =
      { result := Except.error "Commit message cannot be empty",
        selection := selectedUris, events := [] } ∧
    GitServiceAlt.commit b selectedUris message amend =
      { result := Except.error "Commit message cannot be empty",
        selection := selectedUris, events := [] } := by
  have ht : jsTrim message.data = [] := jsTrim_eq_nil_of_whitespace h
  constructor
  · simp [GitService.commit, ht]
  · simp [GitServiceAlt.commit, ht]

/-- Witness for C6 at `message = " "`. -/
theorem commit_whitespace_message_rejected_witness :
    GitService.commit ⟨fun _ => true, true, fun _ => true, true, true, id⟩ true ["a.txt"]
        ⟨[], [⟨"a.txt", none⟩], []⟩ " " false =
      { result := Except.error "Commit message cannot be empty",
        selection := ["a.txt"], events := [] } ∧
    GitServiceAlt.commit ⟨fun _ => true, true, fun _ => true, true, true, id⟩ ["a.txt"]
        " " false =
      { result := Except.error "Commit message cannot be empty",
        selection := ["a.txt"], events := [] } :=
  commit_whitespace_message_rejected _ true ["a.txt"] ⟨[], [⟨"a.txt", none⟩], []⟩ " " false
    (by decide)

/-- C5: for every commit attempt through the orchestrating `GitService`: on
overall success the stored SelectionSet is cleared and the state-change
notification fires; on overall failure the operation surfaces an error and
the SelectionSet is left exactly as it was. -/
theorem commit_selection_cleared_iff_success (b : ClientBehavior) (hasState : Bool)
    (selectedUris : List String) (r : RepoState) (message : String) (amend : Bool) :
    ((GitService.commit b hasState selectedUris r message amend).result = Except.ok () →
      (GitService.commit b hasState selectedUris r message amend).selection = [] ∧
      GitEvent.notify ∈ (GitService.commit b hasState selectedUris r message amend).events) ∧
    (∀ e, (GitService.commit b hasState selectedUris r message amend).result = Except.error e →
      (GitService.commit b hasState selectedUris r message amend).selection = selectedUris) := by
  unfold GitService.commit
  repeat' split
  all_goals simp_all [FileSelectionService.clearSelection]

/-- Witness for C5: a concrete successful commit clears the selection and
fires the notification. -/
theorem commit_selection_cleared_iff_success_witness :
    (GitService.commit ⟨fun _ => true, true, fun _ => true, true, true, id⟩ true ["a.txt"]
        ⟨[], [⟨"a.txt", none⟩], []⟩ "msg" false).selection = [] ∧
    GitEvent.notify ∈ (GitService.commit ⟨fun _ => true, true, fun _ => true, true, true, id⟩
        true ["a.txt"] ⟨[], [⟨"a.txt", none⟩], []⟩ "msg" false).events :=
  (commit_selection_cleared_iff_success ⟨fun _ => true, true, fun _ => true, true, true, id⟩
    true ["a.txt"] ⟨[], [⟨"a.txt", none⟩], []⟩ "msg" false).1 rfl

/-! ## Claims about the validation checker -/

/-- C7 counterexample: with no repository handle and an empty selection, the
checker returns immediately with the single issue `No repository provided`;
the failing non-empty-selection check does **not** append its issue, so the
handle-presence check does short-circuit the remaining checks. -/
theorem validateCommitSetup_short_circuit_refuted :
    GitValidationService.validateCommitSetup none [] [] =
      (false, ["No repository provided"]) ∧
    "No files selected for commit" ∉ (GitValidationService.validateCommitSetup none [] []).2 := by
  decide

/-- C7 as amended: once the repository handle is present with a root URI, the
remaining four checks (add capability, commit capability, non-empty selection,
selection/changes intersection, repository state) each append their issue on
failure without short-circuiting one another, and `isValid` holds iff the
issues list is empty; a missing handle or root URI instead returns immediately
with only that issue. -/
theorem validateCommitSetup_checks (repo : Repo) (u : String)
    (hroot : repo.rootUri = some u) (selectedFiles changedFiles : List String) :
    ((GitValidationService.validateCommitSetup (some repo) selectedFiles changedFiles).1 = true ↔
      (GitValidationService.validateCommitSetup (some repo) selectedFiles changedFiles).2 = []) ∧
    ("Repository.add method not available" ∈
        (GitValidationService.validateCommitSetup (some repo) selectedFiles changedFiles).2 ↔
      repo.hasAddMethod = false) ∧
    ("Repository.commit method not available" ∈
        (GitValidationService.validateCommitSetup (some repo) selectedFiles changedFiles).2 ↔
      repo.hasCommitMethod = false) ∧
    ("No files selected for commit" ∈
        (GitValidationService.validateCommitSetup (some repo) selectedFiles changedFiles).2 ↔
      selectedFiles = []) ∧
    ("Selected files have no changes" ∈
        (GitValidationService.validateCommitSetup (some repo) selectedFiles changedFiles).2 ↔
      selectedFiles.filter (fun selected => changedFiles.any (fun changed => changed = selected))
        = []) ∧
    ("Repository state is not available" ∈
        (GitValidationService.validateCommitSetup (some repo) selectedFiles changedFiles).2 ↔
      repo.hasState = false) := by
  obtain ⟨ru, ha, hc, hs⟩ := repo
  simp only [Repo.mk.injEq] at hroot ⊢
  subst hroot
  cases ha <;> cases hc <;> cases hs <;>
    by_cases h3 : selectedFiles.isEmpty <;>
    by_cases h4 : (selectedFiles.filter
      (fun selected => changedFiles.any (fun changed => changed = selected))).isEmpty <;>
    simp_all [GitValidationService.validateCommitSetup, List.isEmpty_iff]

/-- Witness for C7 at a fully capable repository with a fresh selection. -/
theorem validateCommitSetup_checks_witness :
    ((GitValidationService.validateCommitSetup (some ⟨some "/repo", true, true, true⟩)
        ["a"] ["a"]).1 = true ↔
      (GitValidationService.validateCommitSetup (some ⟨some "/repo", true, true, true⟩)
        ["a"] ["a"]).2 = []) ∧
    ("Repository.add method not available" ∈
        (GitValidationService.validateCommitSetup (some ⟨some "/repo", true, true, true⟩)
          ["a"] ["a"]).2 ↔
      Repo.hasAddMethod ⟨some "/repo", true, true, true⟩ = false) ∧
    ("Repository.commit method not available" ∈
        (GitValidationService.validateCommitSetup (some ⟨some "/repo", true, true, true⟩)
          ["a"] ["a"]).2 ↔
      Repo.hasCommitMethod ⟨some "/repo", true, true, true⟩ = false) ∧
    ("No files selected for commit" ∈
        (GitValidationService.validateCommitSetup (some ⟨some "/repo", true, true, true⟩)
          ["a"] ["a"]).2 ↔
      (["a"] : List String) = []) ∧
    ("Selected files have no changes" ∈
        (GitValidationService.validateCommitSetup (some ⟨some "/repo", true, true, true⟩)
          ["a"] ["a"]).2 ↔
      (["a"] : List String).filter
        (fun selected => (["a"] : List String).any (fun changed => changed = selected)) = []) ∧
    ("Repository state is not available" ∈
        (GitValidationService.validateCommitSetup (some ⟨some "/repo", true, true, true⟩)
          ["a"] ["a"]).2 ↔
      Repo.hasState ⟨some "/repo", true, true, true⟩ = false) :=
  validateCommitSetup_checks ⟨some "/repo", true, true, true⟩ "/repo" rfl ["a"] ["a"]

/-! ## Claims about the message heuristic pipeline -/

set_option maxRecDepth 4000 in
/-- C2: whatever the analyzed files contain, the prompt assembled by
`createDetailedCommitPrompt` embeds the template's `fix:` instruction, and the
`fix` keywords sit first in the ordered type table, so `determineCommitType`
classifies every assembled prompt as `fix`. -/
theorem detailedPrompt_always_classified_fix
    (diffsAndContext : List CommitMessageGenerator.FileChangeAnalysis)
    (h : diffsAndContext ≠ []) :
    CommitMessageGenerator.determineCommitType
      (CommitMessageGenerator.createDetailedCommitPrompt diffsAndContext) = "fix" := by
  clear h
  have key : containsSub "fix".data
      (jsToLower (CommitMessageGenerator.createDetailedCommitPrompt diffsAndContext).data) =
        true := by
    simp only [CommitMessageGenerator.createDetailedCommitPrompt, String.data_append,
      jsToLower_append]
    exact containsSub_append_of_right _ _ (by decide) _
  simp [CommitMessageGenerator.determineCommitType, CommitMessageGenerator.findFirstMatch,
    CommitMessageGenerator.typeMap, key]

/-- Witness for C2 with one analyzed file. -/
theorem detailedPrompt_always_classified_fix_witness :
    CommitMessageGenerator.determineCommitType
      (CommitMessageGenerator.createDetailedCommitPrompt
        [⟨"a.txt", "M", "some diff", "Modified file: a.txt"⟩]) = "fix" :=
  detailedPrompt_always_classified_fix [⟨"a.txt", "M", "some diff", "Modified file: a.txt"⟩]
    (by decide)

/-- C9 counterexample: the prompt `update readme package.json` contains
`readme` and `update` and none of the earlier type keywords, yet the scope
table's `deps` row (`package.json`) precedes the `docs` row, so the composed
message is `docs(deps): update documentation`, not
`docs(docs): update documentation`. -/
theorem docs_classification_refuted :
    containsSub "readme".data (jsToLower "update readme package.json".data) = true ∧
    containsSub "update".data (jsToLower "update readme package.json".data) = true ∧
    containsSub "fix".data (jsToLower "update readme package.json".data) = false ∧
    containsSub "bug".data (jsToLower "update readme package.json".data) = false ∧
    containsSub "error".data (jsToLower "update readme package.json".data) = false ∧
    containsSub "test".data (jsToLower "update readme package.json".data) = false ∧
    containsSub "spec".data (jsToLower "update readme package.json".data) = false ∧
    CommitMessageGenerator.generateIntelligentCommitMessage "update readme package.json" =
      some "docs(deps): update documentation" ∧
    CommitMessageGenerator.generateIntelligentCommitMessage "update readme package.json" ≠
      some "docs(docs): update documentation" := by
  decide

/-- C9 as amended: for a prompt containing `readme` and `update`, none of the
earlier type keywords (`fix`, `bug`, `error`, `test`, `spec`) **and not
`package.json`** (the scope table's earlier `deps` row), classification yields
type `docs`, scope `docs`, and — the description table having no `docs`
entry — the per-type default, composing `docs(docs): update documentation`. -/
theorem docs_classification_amended (prompt : String)
    (hreadme : containsSub "readme".data (jsToLower prompt.data) = true)
    (hupdate : containsSub "update".data (jsToLower prompt.data) = true)
    (hfix : containsSub "fix".data (jsToLower prompt.data) = false)
    (hbug : containsSub "bug".data (jsToLower prompt.data) = false)
    (herror : containsSub "error".data (jsToLower prompt.data) = false)
    (htest : containsSub "test".data (jsToLower prompt.data) = false)
    (hspec : containsSub "spec".data (jsToLower prompt.data) = false)
    (hpkg : containsSub "package.json".data (jsToLower prompt.data) = false) :
    CommitMessageGenerator.generateIntelligentCommitMessage prompt =
      some "docs(docs): update documentation" := by
  clear hupdate
  have htype : CommitMessageGenerator.determineCommitType prompt = "docs" := by
    simp [CommitMessageGenerator.determineCommitType, CommitMessageGenerator.findFirstMatch,
      CommitMessageGenerator.typeMap, hreadme, hfix, hbug, herror, htest, hspec]
  have hscope : CommitMessageGenerator.determineScope prompt = "docs" := by
    simp [CommitMessageGenerator.determineScope, CommitMessageGenerator.findFirstMatch,
      CommitMessageGenerator.scopeMap, hreadme, htest, hspec, hpkg]
  simp only [CommitMessageGenerator.generateIntelligentCommitMessage, htype, hscope,
    CommitMessageGenerator.generateDescription]
  rfl

/-- Witness for C9 at the prompt `update the readme`. -/
theorem docs_classification_amended_witness :
    CommitMessageGenerator.generateIntelligentCommitMessage "update the readme" =
      some "docs(docs): update documentation" :=
  docs_classification_amended "update the readme" (by decide) (by decide) (by decide)
    (by decide) (by decide) (by decide) (by decide) (by decide)

/-! ## Claims about the diff reader -/

/-- C1 counterexample: a git diff that is a single line of 3000 characters
exceeds the 2000-character threshold, but the "truncation" keeps the first 50
*lines* — here the whole 3000-character line — and appends the 37-character
marker, so the returned diff has 3037 characters, beyond the claimed cap of
approximately 2000 characters (even granting the cap the appended marker). -/
theorem getGitDiff_char_cap_refuted :
    GitDiffService.getFileDiff true (some (List.replicate 3000 'x')) none
        "a.ts".data "M".data =
      List.replicate 3000 'x' ++ "\n... (diff truncated for AI analysis)".data ∧
    (GitDiffService.getFileDiff true (some (List.replicate 3000 'x')) none
        "a.ts".data "M".data).length = 3037 ∧
    2000 + ("\n... (diff truncated for AI analysis)".data).length < 3037 := by
  have hct : ¬(("M".data : List Char) = "A".data) := by decide
  have hnl : '\n' ∉ List.replicate 3000 'x' := fun hmem =>
    absurd (List.eq_of_mem_replicate hmem) (by decide)
  have hempty : (List.replicate 3000 'x').isEmpty = false := by decide
  have hlen3000 : (List.replicate 3000 'x').length = 3000 := List.length_replicate 3000 'x'
  have h1 : GitDiffService.getFileDiff true (some (List.replicate 3000 'x')) none
      "a.ts".data "M".data =
        GitDiffService.getGitDiff true (some (List.replicate 3000 'x'))
          "a.ts".data "M".data := by
    unfold GitDiffService.getFileDiff
    rw [if_neg hct]
  have h2 : GitDiffService.getGitDiff true (some (List.replicate 3000 'x'))
      "a.ts".data "M".data =
        GitDiffService.truncateDiff
          (if (List.replicate 3000 'x').isEmpty = true
           then "M".data ++ ": ".data ++ "a.ts".data else List.replicate 3000 'x') := by
    unfold GitDiffService.getGitDiff
    rw [if_pos rfl]
  have h3 : (if (List.replicate 3000 'x').isEmpty = true
      then "M".data ++ ": ".data ++ "a.ts".data else List.replicate 3000 'x') =
        List.replicate 3000 'x' := by
    rw [hempty, if_neg (by decide : ¬(false = true))]
  have h4 : GitDiffService.truncateDiff (List.replicate 3000 'x') =
      List.replicate 3000 'x' ++ "\n... (diff truncated for AI analysis)".data := by
    unfold GitDiffService.truncateDiff
    rw [if_pos (by rw [hlen3000]; omega : (List.replicate 3000 'x').length > 2000),
      splitLines_of_no_newline _ hnl]
    rfl
  have heq := h1.trans (h2.trans (by rw [h3, h4]))
  refine ⟨heq, ?_, by decide⟩
  rw [heq, List.length_append, hlen3000]
  decide

/-- C1 as amended: for a non-added change the diff reader returns the git
diff, and that diff is either (a) at most 2000 characters, (b) the one-line
`<changeType>: <path>` placeholder, or (c) truncated **by line count**: its
first 50 lines with the marker appended, so at most 51 lines — the character
length itself is not capped at 2000. -/
theorem getFileDiff_truncates_by_lines (hasGit : Bool)
    (diffOutcome fileContent : Option (List Char)) (relativePath changeType : List Char)
    (h : changeType ≠ "A".data) :
    GitDiffService.getFileDiff hasGit diffOutcome fileContent relativePath changeType =
      GitDiffService.getGitDiff hasGit diffOutcome relativePath changeType ∧
    ((GitDiffService.getGitDiff hasGit diffOutcome relativePath changeType).length ≤ 2000 ∨
     GitDiffService.getGitDiff hasGit diffOutcome relativePath changeType =
       changeType ++ ": ".data ++ relativePath ∨
     (splitLines (GitDiffService.getGitDiff hasGit diffOutcome relativePath
       changeType)).length ≤ 51) := by
  have hcases : ∀ diff : List Char, (GitDiffService.truncateDiff diff).length ≤ 2000 ∨
      (splitLines (GitDiffService.truncateDiff diff)).length ≤ 51 := by
    intro diff
    unfold GitDiffService.truncateDiff
    by_cases hlen : diff.length > 2000
    · rw [if_pos hlen]
      refine Or.inr ?_
      rw [length_splitLines, List.count_append]
      have hmark : ("\n... (diff truncated for AI analysis)".data).count '\n' = 1 := by
        decide
      have hnonl : ∀ s ∈ (splitLines diff).take 50, '\n' ∉ s :=
        fun s hs => no_newline_of_mem_splitLines _ s (List.mem_of_mem_take hs)
      have hcount := count_joinLines_le _ hnonl
      have htake : ((splitLines diff).take 50).length ≤ 50 := by
        rw [List.length_take]
        exact min_le_left _ _
      rw [hmark]
      omega
    · rw [if_neg hlen]
      exact Or.inl (by omega)
  refine ⟨by simp [GitDiffService.getFileDiff, h], ?_⟩
  unfold GitDiffService.getGitDiff
  by_cases hg : hasGit
  · rw [if_pos hg]
    match diffOutcome with
    | none => exact Or.inr (Or.inl rfl)
    | some gitDiff =>
      rcases hcases (if gitDiff.isEmpty then changeType ++ ": ".data ++ relativePath
        else gitDiff) with hc | hc
      · exact Or.inl hc
      · exact Or.inr (Or.inr hc)
  · rw [if_neg hg]
    exact Or.inr (Or.inl rfl)

/-- Witness for C1's amended claim at a concrete non-added change. -/
theorem getFileDiff_truncates_by_lines_witness :
    GitDiffService.getFileDiff false none none "a.ts".data "M".data =
      GitDiffService.getGitDiff false none "a.ts".data "M".data ∧
    ((GitDiffService.getGitDiff false none "a.ts".data "M".data).length ≤ 2000 ∨
     GitDiffService.getGitDiff false none "a.ts".data "M".data =
       "M".data ++ ": ".data ++ "a.ts".data ∨
     (splitLines (GitDiffService.getGitDiff false none "a.ts".data "M".data)).length ≤ 51) :=
  getFileDiff_truncates_by_lines false none none "a.ts".data "M".data (by decide)

end SmartGit
